import Mathlib

/-!
Shallow embedding of `PI-vs-538.py`, a script that compares FiveThirtyEight
forecast percentages (read from a local CSV) with PredictIt market prices
(fetched over HTTP with a fixed-count retry loop), and prints a comparison
table.  Python floats are modelled as exact rationals (`ℚ`); the numeric
values exercised here round identically in both representations.  HTTP is
modelled as a stream of per-attempt outcomes supplied as a function
`Nat → Outcome`.  Exceptions are modelled with `Except`: an uncaught Python
exception terminates the interpreter with exit status 1.
-/

namespace PIvs538

/-- Models Python `float(s)` restricted to plain decimal literals
(optional sign, digits, optional decimal point): returns `none` where
`float` raises `ValueError`.  Exponent/inf/nan syntax is not modelled;
the program only ever parses plain decimals. -/
def digitsToNat (acc : Nat) : List Char → Option Nat
  | [] => some acc
  | c :: cs => if c.isDigit then digitsToNat (10 * acc + (c.toNat - 48)) cs else none

/-- Unsigned part of `float(s)`: digits, optionally followed by a point and
more digits; at least one digit must be present overall.  Returns the
integer part, the fraction digits' value, and the number of fraction
digits. -/
def pyFloatCore (cs : List Char) : Option (Nat × Nat × Nat) :=
  let ip := cs.takeWhile (fun c => c.isDigit)
  let rest := cs.dropWhile (fun c => c.isDigit)
  match rest with
  | [] =>
    match digitsToNat 0 ip with
    | some n => if ip = [] then none else some (n, 0, 0)
    | none => none
  | '.' :: fr =>
    match digitsToNat 0 ip, digitsToNat 0 fr with
    | some n, some f =>
      if ip = [] ∧ fr = [] then none else some (n, f, fr.length)
    | _, _ => none
  | _ => none

/-- Sign and digit groups of a plain decimal literal (see `pyFloatCore`). -/
def pyFloatParts (s : String) : Option (Bool × Nat × Nat × Nat) :=
  match s.data with
  | '-' :: cs => (pyFloatCore cs).map (fun p => (true, p))
  | '+' :: cs => (pyFloatCore cs).map (fun p => (false, p))
  | cs => (pyFloatCore cs).map (fun p => (false, p))

/-- Models Python `float(s)` on plain decimal strings: the parsed digit
groups assembled into a rational. -/
def pyFloat (s : String) : Option ℚ :=
  (pyFloatParts s).map
    (fun p => (if p.1 then (-1 : ℚ) else 1) * ((p.2.1 : ℚ) + (p.2.2.1 : ℚ) / (10 : ℚ) ^ p.2.2.2))

/-- Models Python `int(n)` on a float: truncation toward zero. -/
def pyInt (q : ℚ) : ℤ :=
  if q < 0 then -⌊-q⌋ else ⌊q⌋

/-- Rounding used by Python `format(n, '0.0f')`: round to the nearest
integer, ties to even. -/
def roundHalfEven (q : ℚ) : ℤ :=
  if q - ⌊q⌋ < 1 / 2 then ⌊q⌋
  else if 1 / 2 < q - ⌊q⌋ then ⌊q⌋ + 1
  else if ⌊q⌋ % 2 = 0 then ⌊q⌋ else ⌊q⌋ + 1

/-- Models Python `format(n, '0.0f')`: round half-to-even to a whole
number; a negative value that rounds to zero prints as `-0`. -/
def fmt0f (q : ℚ) : String :=
  if q < 0 ∧ roundHalfEven q = 0 then "-0" else toString (roundHalfEven q)

/-- Source `addSign` (lines 126-132): prefix `+` when `int(n) > 0`,
otherwise print `format(n, '0.0f')` unchanged. -/
def addSign (n : ℚ) : String :=
  if 0 < pyInt n then "+" ++ fmt0f n else fmt0f n

/-- Models Python `str.rjust(w)`: left-pad with spaces up to width `w`. -/
def rjust (w : Nat) (s : String) : String :=
  if s.length < w then String.mk (List.replicate (w - s.length) ' ') ++ s else s

/-- Source `State` class: one record per tracked state.  The Python object
gains the six numeric attributes dynamically; absence of an attribute
(`AttributeError` on access) is modelled as `none`. -/
structure State where
  abbr : String
  name : String
  fteDemChance : Option ℚ
  fteRepChance : Option ℚ
  piDemPrice : Option ℚ
  piDemChance : Option ℚ
  piRepPrice : Option ℚ
  piRepChance : Option ℚ
deriving DecidableEq

/-- Source `stateNames` dict (lines 34-49), in its literal order, which is
already alphabetical, so `sorted(stateNames)` yields the same order. -/
def stateNames : List (String × String) :=
  [("AZ", "Arizona"), ("CO", "Colorado"), ("FL", "Florida"), ("GA", "Georgia"),
   ("IA", "Iowa"), ("MI", "Mississippi"), ("MN", "Minnesota"),
   ("NC", "North Carolina"), ("NH", "New Hampshire"), ("NV", "Nevada"),
   ("OH", "Ohio"), ("PA", "Pennsylvania"), ("VA", "Virginia"), ("WI", "Wisconsin")]

/-- Source `states` list (lines 51-54): the fixed record set, with only
`abbr` and `name` populated. -/
def states : List State :=
  stateNames.map (fun p => ⟨p.1, p.2, none, none, none, none, none, none⟩)

/-- A row produced by `csv.DictReader`: an association of column names to
cell strings. -/
abbrev Row := List (String × String)

/-- Models `csv.DictReader`: pair each data row's cells with the header.
(`zip` truncates a long row instead of collecting extras under a `None`
key, and drops `restval` padding of short rows; both differences only
affect keys the program never reads, or turn one uncaught exception into
another.) -/
def readCsv (header : List String) (rawRows : List (List String)) : List Row :=
  rawRows.map (fun r => header.zip r)

/-- Forecast lookup for one state (source lines 69-80): scan `fteChances`
in file order; on the first row whose `state` cell equals the state's
abbreviation, set both forecast fields from that row and stop.  A missing
key (`KeyError`) or failed `float` conversion (`ValueError`) is an uncaught
exception, modelled as `Except.error`.  The returned `Bool` records whether
the per-state progress line said `good!` (`true`) or `fail!` (`false`). -/
def fteStep (rows : List Row) (st : State) : Except Unit (State × Bool) :=
  match rows with
  | [] => Except.ok (st, false)
  | row :: rest =>
    match row.lookup "state" with
    | none => Except.error ()
    | some v =>
      if v = st.abbr then
        match row.lookup "dem" with
        | none => Except.error ()
        | some d =>
          match pyFloat d with
          | none => Except.error ()
          | some dv =>
            match row.lookup "rep" with
            | none => Except.error ()
            | some r =>
              match pyFloat r with
              | none => Except.error ()
              | some rv =>
                Except.ok ({ st with fteDemChance := some dv, fteRepChance := some rv }, true)
      else fteStep rest st

/-- The forecast loop over all states (source lines 69-80); an uncaught
exception in any state's lookup aborts the whole loop. -/
def fteAll (rows : List Row) : List State → Except Unit (List State)
  | [] => Except.ok []
  | st :: rest =>
    match fteStep rows st with
    | Except.error e => Except.error e
    | Except.ok (st2, _) =>
      match fteAll rows rest with
      | Except.error e => Except.error e
      | Except.ok rest2 => Except.ok (st2 :: rest2)

/-- One entry of a market response's `Contracts` array.  `none` in a field
models the JSON key being absent, so that reading it raises `KeyError`. -/
structure Contract where
  name : Option String
  bestBuyYesCost : Option ℚ
deriving DecidableEq

/-- The body of an HTTP response as the program observes it: the literal
bytes `null`, a JSON object from which `r.json()['Contracts']` yields a
list of contracts, or anything else (for which `r.json()['Contracts']`
raises). -/
inductive Body
  | nullBody
  | contracts (cs : List Contract)
  | malformed
deriving DecidableEq

/-- The outcome of one `requests.get` call: either the transport call
throws, or it returns a response with a status code and a body. -/
inductive Outcome
  | throw
  | resp (status : Nat) (body : Body)
deriving DecidableEq

/-- Result of `getContentDict`, carrying the number of attempts made
(dots printed) and the number of `sleep(delay)` calls executed.
`success` is a normal return, `exhausted` is the bare `raise` after the
loop, `aborted` is a propagating `requests.get` exception, and
`parseError` is a propagating `r.json()['Contracts']` exception. -/
inductive FetchResult
  | success (cs : List Contract) (attempts sleeps : Nat)
  | exhausted (attempts sleeps : Nat)
  | aborted (attempts sleeps : Nat)
  | parseError (attempts sleeps : Nat)
deriving DecidableEq

/-- Account for one completed loop iteration that soft-failed: one more
dot printed and one more `sleep(delay)` executed before whatever the rest
of the loop did. -/
def FetchResult.bump : FetchResult → FetchResult
  | .success cs a s => .success cs (a + 1) (s + 1)
  | .exhausted a s => .exhausted (a + 1) (s + 1)
  | .aborted a s => .aborted (a + 1) (s + 1)
  | .parseError a s => .parseError (a + 1) (s + 1)

/-- Attempts made by a `getContentDict` run. -/
def FetchResult.attempts : FetchResult → Nat
  | .success _ a _ => a
  | .exhausted a _ => a
  | .aborted a _ => a
  | .parseError a _ => a

/-- Sleeps executed by a `getContentDict` run. -/
def FetchResult.sleeps : FetchResult → Nat
  | .success _ _ s => s
  | .exhausted _ s => s
  | .aborted _ s => s
  | .parseError _ s => s

/-- Whether a `getContentDict` run returned normally. -/
def FetchResult.isSuccess : FetchResult → Bool
  | .success _ _ _ => true
  | _ => false

/-- Loop body of source `getContentDict` (lines 90-98): attempt `i` prints
a dot and calls `requests.get`; a throw propagates at once; a response
with status 200 and body other than the bytes `null` is returned via
`r.json()['Contracts']` (which may itself throw); any other response is
followed by `sleep(delay)` and a retry; after `fuel` failed attempts the
bare `raise` fires. -/
def getContentDictAux (oc : Nat → Outcome) (i : Nat) : Nat → FetchResult
  | 0 => FetchResult.exhausted 0 0
  | fuel + 1 =>
    match oc i with
    | Outcome.throw => FetchResult.aborted 1 0
    | Outcome.resp status body =>
      if status = 200 ∧ body ≠ Body.nullBody then
        match body with
        | Body.contracts cs => FetchResult.success cs 1 0
        | _ => FetchResult.parseError 1 0
      else (getContentDictAux oc (i + 1) fuel).bump

/-- Source `getContentDict(url, tries=5, delay=1)`: run the retry loop
over the attempt-outcome stream `oc`.  The caller passes `tries = 5`
(both the default and the explicit argument at line 106). -/
def getContentDict (tries : Nat) (oc : Nat → Outcome) : FetchResult :=
  getContentDictAux oc 0 tries

/-- An attempt outcome that the loop retries after: a returned response
with status other than 200, or with literal-`null` body (line 95). -/
def softResp : Outcome → Bool
  | Outcome.throw => false
  | Outcome.resp status body => status != 200 || body == Body.nullBody

/-- Source contract-parsing loop (lines 111-119): a contract named
`Democratic` sets `piDemPrice` and `piDemChance`, one named `Republican`
sets `piRepPrice` and `piRepChance`, anything else only prints a warning.
A missing `Name` or `BestBuyYesCost` key raises `KeyError`, uncaught
(this loop runs in the `else:` clause, outside the `try`). -/
def parseContracts : State → List Contract → Except Unit State
  | st, [] => Except.ok st
  | st, c :: rest =>
    match c.name with
    | none => Except.error ()
    | some n =>
      if n = "Democratic" then
        match c.bestBuyYesCost with
        | none => Except.error ()
        | some p =>
          parseContracts { st with piDemPrice := some p, piDemChance := some (p * 100) } rest
      else if n = "Republican" then
        match c.bestBuyYesCost with
        | none => Except.error ()
        | some p =>
          parseContracts { st with piRepPrice := some p, piRepChance := some (p * 100) } rest
      else parseContracts st rest

/-- One state's slice of the PredictIt loop (lines 101-119): any exception
raised inside `getContentDict` is caught by the bare `except:` and the
state is reported failed with its fields untouched; on a normal return the
contracts are parsed (whose own exceptions are uncaught).  The `Bool`
records `good!` (`true`) versus `fail!` (`false`). -/
def marketStep (tries : Nat) (oc : Nat → Outcome) (st : State) : Except Unit (State × Bool) :=
  match getContentDict tries oc with
  | FetchResult.success cs _ _ => (parseContracts st cs).map (fun st2 => (st2, true))
  | _ => Except.ok (st, false)

/-- The PredictIt loop over all states (lines 100-119); `oc` gives each
state's attempt-outcome stream, keyed by abbreviation as the URL is. -/
def marketAll (oc : String → Nat → Outcome) : List State → Except Unit (List State)
  | [] => Except.ok []
  | st :: rest =>
    match marketStep 5 (oc st.abbr) st with
    | Except.error e => Except.error e
    | Except.ok (st2, _) =>
      match marketAll oc rest with
      | Except.error e => Except.error e
      | Except.ok rest2 => Except.ok (st2 :: rest2)

/-- Source `colWidth` (line 124): the table's column widths. -/
def colWidth : List Nat := [4, 3, 4, 3]

/-- The four-attribute presence check of the rendering loop (line 167):
evaluating `state.fteDemChance, state.fteRepChance, state.piDemPrice,
state.piRepPrice` raises `AttributeError` exactly when one is absent. -/
def hasAll (st : State) : Bool :=
  st.fteDemChance.isSome && st.fteRepChance.isSome &&
  st.piDemPrice.isSome && st.piRepPrice.isSome

/-- The six formatted cells of one table row (lines 171-177), in print
order: `538%`, `PI¢` and signed difference for the Democratic column
group, then the same for the Republican group.  The `getD 0` defaults are
never consulted: the rendering loop only reaches these after the presence
check, and the `piXxxChance` fields are always set together with the
corresponding `piXxxPrice`. -/
def renderCells (st : State) : List String :=
  [fmt0f (st.fteDemChance.getD 0) ++ "%",
   fmt0f (st.piDemChance.getD 0) ++ "¢",
   addSign (st.piDemChance.getD 0 - st.fteDemChance.getD 0),
   fmt0f (st.fteRepChance.getD 0) ++ "%",
   fmt0f (st.piRepChance.getD 0) ++ "¢",
   addSign (st.piRepChance.getD 0 - st.fteRepChance.getD 0)]

/-- One printed table row (lines 179-189): the cells right-justified to
`colWidth` and joined by single spaces as `print` does. -/
def renderRow (st : State) : String :=
  match renderCells st with
  | [fteDem, piDem, demDiff, fteRep, piRep, repDiff] =>
    " ".intercalate
      [rjust (colWidth.getD 0 0) st.abbr, "│",
       rjust (colWidth.getD 1 0) fteDem, rjust (colWidth.getD 2 0) piDem,
       rjust (colWidth.getD 3 0) demDiff, "│",
       rjust (colWidth.getD 1 0) fteRep, rjust (colWidth.getD 2 0) piRep,
       rjust (colWidth.getD 3 0) repDiff]
  | _ => ""

/-- The rendering loop (lines 164-189): states with all four checked
attributes are printed as table rows, the rest have their abbreviations
appended to `badData`, both in iteration order.  Returns (printed rows,
`badData`). -/
def renderPhase : List State → List String × List String
  | [] => ([], [])
  | st :: rest =>
    let r := renderPhase rest
    if hasAll st then (renderRow st :: r.1, r.2) else (r.1, st.abbr :: r.2)

/-- Result of attempting to load and parse `fte.csv` (lines 59-66):
either the `open`/`csv` machinery raised (file missing or unreadable) or
it produced a header row and data rows.  `csv.DictReader` accepts any
first row as the header, so a malformed header surfaces only later, as
missing keys in the row dictionaries. -/
inductive LoadRes
  | err
  | ok (header : List String) (rawRows : List (List String))

/-- Observable outcome of one whole run of the script.  `exitCode` is the
process exit status (CPython exits 1 on an uncaught exception as well as
on `exit(1)`); `fatalMsg` is the explicit missing-file diagnostic of lines
64-65; `crashed` marks an uncaught exception (traceback on stderr);
`rendered` and `badData` are the rendering loop's outputs (empty when the
run died earlier). -/
structure RunOut where
  exitCode : Nat
  fatalMsg : Bool
  crashed : Bool
  rendered : List String
  badData : List String
deriving DecidableEq

/-- The whole script, end to end: load `fte.csv` (fatal diagnostic and
`exit(1)` on failure), run the forecast lookup loop, the PredictIt loop
with `tries = 5`, then the rendering loop; an uncaught exception anywhere
terminates with status 1 and no table. -/
def run (load : LoadRes) (oc : String → Nat → Outcome) : RunOut :=
  match load with
  | LoadRes.err => ⟨1, true, false, [], []⟩
  | LoadRes.ok header rawRows =>
    match fteAll (readCsv header rawRows) states with
    | Except.error _ => ⟨1, false, true, [], []⟩
    | Except.ok sts1 =>
      match marketAll oc sts1 with
      | Except.error _ => ⟨1, false, true, [], []⟩
      | Except.ok sts2 => ⟨0, false, false, (renderPhase sts2).1, (renderPhase sts2).2⟩

/-- Attempt/sleep counts seen by the caller: a per-iteration delay after
every soft-failed response; no delay after a return or a propagating
exception; the bare `raise` fires only with all fuel spent. -/
def delayShape (tries : Nat) : FetchResult → Prop
  | FetchResult.success _ a s => s + 1 = a
  | FetchResult.exhausted a s => a = tries ∧ s = tries
  | FetchResult.aborted a s => s + 1 = a
  | FetchResult.parseError a s => s + 1 = a

theorem FetchResult.bump_attempts (r : FetchResult) : r.bump.attempts = r.attempts + 1 := by
  cases r <;> rfl

theorem FetchResult.bump_eq_success {r : FetchResult} {cs : List Contract} {a s : Nat}
    (h : r.bump = FetchResult.success cs a s) :
    ∃ a2 s2, r = FetchResult.success cs a2 s2 ∧ a = a2 + 1 ∧ s = s2 + 1 := by
  cases r <;> simp [FetchResult.bump] at h
  exact ⟨_, _, by rw [h.1], h.2.1.symm, h.2.2.symm⟩

theorem softResp_resp {status : Nat} {body : Body}
    (h : softResp (Outcome.resp status body) = true) :
    status ≠ 200 ∨ body = Body.nullBody := by
  simpa [softResp] using h

theorem softResp_of_not_ok {status : Nat} {body : Body}
    (h : ¬(status = 200 ∧ body ≠ Body.nullBody)) :
    softResp (Outcome.resp status body) = true := by
  simp [softResp]
  tauto

theorem getContentDictAux_exhausts (oc : Nat → Outcome) :
    ∀ (fuel i : Nat), (∀ j, j < fuel → softResp (oc (i + j)) = true) →
      getContentDictAux oc i fuel = FetchResult.exhausted fuel fuel := by
  intro fuel
  induction fuel with
  | zero => intro i _; rfl
  | succ n ih =>
    intro i h
    have h0 : softResp (oc i) = true := by simpa using h 0 (Nat.succ_pos n)
    cases hoc : oc i with
    | throw => rw [hoc] at h0; simp [softResp] at h0
    | resp status body =>
      rw [hoc] at h0
      have hsoft := softResp_resp h0
      simp only [getContentDictAux, hoc]
      rw [if_neg (by tauto)]
      rw [ih (i + 1) (fun j hj => by
        simpa [show i + 1 + j = i + (j + 1) by omega] using h (j + 1) (by omega))]
      rfl

theorem getContentDictAux_success (oc : Nat → Outcome) :
    ∀ (fuel i : Nat) (cs : List Contract) (a s : Nat),
      getContentDictAux oc i fuel = FetchResult.success cs a s →
      s + 1 = a ∧ oc (i + s) = Outcome.resp 200 (Body.contracts cs) ∧
        ∀ j, j < s → softResp (oc (i + j)) = true := by
  intro fuel
  induction fuel with
  | zero => intro i cs a s h; exact absurd h (by simp [getContentDictAux])
  | succ n ih =>
    intro i cs a s h
    cases hoc : oc i with
    | throw => simp only [getContentDictAux, hoc] at h; exact absurd h (by simp)
    | resp status body =>
      simp only [getContentDictAux, hoc] at h
      by_cases hc : status = 200 ∧ body ≠ Body.nullBody
      · rw [if_pos hc] at h
        cases body with
        | nullBody => exact absurd rfl hc.2
        | contracts cs2 =>
          simp only [FetchResult.success.injEq] at h
          obtain ⟨hcs, ha, hs⟩ := h
          subst hcs ha hs
          exact ⟨rfl, by rw [Nat.add_zero, hoc, hc.1], fun j hj => absurd hj (by omega)⟩
        | malformed => simp at h
      · rw [if_neg hc] at h
        obtain ⟨a2, s2, hrec, ha, hs⟩ := FetchResult.bump_eq_success h
        obtain ⟨h1, h2, h3⟩ := ih (i + 1) cs a2 s2 hrec
        subst ha hs
        refine ⟨by omega, ?_, ?_⟩
        · rw [show i + (s2 + 1) = i + 1 + s2 by omega]; exact h2
        · intro j hj
          cases j with
          | zero => rw [Nat.add_zero, hoc]; exact softResp_of_not_ok hc
          | succ j2 =>
            simpa [show i + (j2 + 1) = i + 1 + j2 by omega] using h3 j2 (by omega)

theorem getContentDictAux_delayShape (oc : Nat → Outcome) :
    ∀ (fuel i : Nat), delayShape fuel (getContentDictAux oc i fuel) := by
  intro fuel
  induction fuel with
  | zero => intro i; exact ⟨rfl, rfl⟩
  | succ n ih =>
    intro i
    simp only [getContentDictAux]
    cases oc i with
    | throw => exact rfl
    | resp status body =>
      simp only []
      by_cases hc : status = 200 ∧ body ≠ Body.nullBody
      · rw [if_pos hc]
        cases body with
        | nullBody => exact absurd rfl hc.2
        | contracts cs2 => exact rfl
        | malformed => exact rfl
      · rw [if_neg hc]
        have := ih (i + 1)
        cases hrec : getContentDictAux oc (i + 1) n with
        | success cs2 a s =>
          rw [hrec] at this
          simp only [delayShape] at this ⊢
          simp [FetchResult.bump, delayShape]
          omega
        | exhausted a s =>
          rw [hrec] at this
          obtain ⟨h1, h2⟩ := this
          subst h1 h2
          exact ⟨rfl, rfl⟩
        | aborted a s =>
          rw [hrec] at this
          simp only [delayShape] at this ⊢
          simp [FetchResult.bump, delayShape]
          omega
        | parseError a s =>
          rw [hrec] at this
          simp only [delayShape] at this ⊢
          simp [FetchResult.bump, delayShape]
          omega

theorem getContentDictAux_attempts_pos (oc : Nat → Outcome) (fuel i : Nat) (h : 1 ≤ fuel) :
    1 ≤ (getContentDictAux oc i fuel).attempts := by
  cases fuel with
  | zero => omega
  | succ n =>
    simp only [getContentDictAux]
    cases oc i with
    | throw => exact Nat.le_refl 1
    | resp status body =>
      simp only []
      by_cases hc : status = 200 ∧ body ≠ Body.nullBody
      · rw [if_pos hc]
        cases body with
        | nullBody => exact absurd rfl hc.2
        | contracts cs2 => exact Nat.le_refl 1
        | malformed => exact Nat.le_refl 1
      · rw [if_neg hc]
        rw [FetchResult.bump_attempts]
        omega

/-- A fresh state record as built at startup (the first entry of `states`). -/
def azInit : State := ⟨"AZ", "Arizona", none, none, none, none, none, none⟩

/-- Attempt-outcome stream whose first attempt is a 200 response with
literal-`null` body and whose second attempt returns a contracts body. -/
def nullThenOk : Nat → Outcome :=
  fun j => if j = 0 then Outcome.resp 200 Body.nullBody else Outcome.resp 200 (Body.contracts [])

/-- C1, counterexample.  The claim counts a throwing transport call among
the soft failures and asserts the configured maximum of 5 attempts is
always performed; but `requests.get` is called outside any `try` inside
`getContentDict`, so a throw propagates at once: against an
always-throwing endpoint only 1 attempt is made, not 5. -/
theorem throw_aborts_retries_cex :
    getContentDict 5 (fun _ => Outcome.throw) = FetchResult.aborted 1 0 ∧
    (getContentDict 5 (fun _ => Outcome.throw)).attempts ≠ 5 :=
  ⟨rfl, by decide⟩

/-- C1, amended.  If every attempt yields a returned response that soft
fails (status ≠ 200 or literal-`null` body) — no transport throw — then
`getContentDict` performs exactly `tries` attempts with one delay after
each, the bare `raise` fires, the caller's bare `except:` reports failure
for the state, its market fields remain untouched (hence absent if they
were absent), and processing continues (no propagating error). -/
theorem retry_exhaustion_amended (st : State) (tries : Nat) (oc : Nat → Outcome)
    (h : ∀ j, j < tries → softResp (oc j) = true) :
    getContentDict tries oc = FetchResult.exhausted tries tries ∧
    marketStep tries oc st = Except.ok (st, false) := by
  have hg : getContentDict tries oc = FetchResult.exhausted tries tries := by
    exact getContentDictAux_exhausts oc tries 0 (fun j hj => by simpa using h j hj)
  refine ⟨hg, ?_⟩
  simp only [marketStep]
  rw [hg]

/-- C1, witness: an endpoint that always answers 500 with a null body is
retried exactly 5 times with 5 delays, and the state survives unchanged
and marked failed. -/
theorem retry_exhaustion_amended_witness :
    getContentDict 5 (fun _ => Outcome.resp 500 Body.nullBody) = FetchResult.exhausted 5 5 ∧
    marketStep 5 (fun _ => Outcome.resp 500 Body.nullBody) azInit = Except.ok (azInit, false) :=
  retry_exhaustion_amended azInit 5 (fun _ => Outcome.resp 500 Body.nullBody)
    (fun _ _ => rfl)

/-- C2.  A `getContentDict` run returns normally only from an attempt
whose response had status 200 and a body other than the literal `null`
(it returns that body's `Contracts`), every earlier attempt having been a
retried soft failure; and a first attempt answering 200 with literal
`null` is retried rather than returned: at least two attempts are made
when the budget allows. -/
theorem success_requires_200_and_nonnull (tries : Nat) (oc : Nat → Outcome) :
    (∀ cs a s, getContentDict tries oc = FetchResult.success cs a s →
      s + 1 = a ∧ oc s = Outcome.resp 200 (Body.contracts cs) ∧
      ∀ j, j < s → softResp (oc j) = true) ∧
    (2 ≤ tries → oc 0 = Outcome.resp 200 Body.nullBody →
      2 ≤ (getContentDict tries oc).attempts) := by
  constructor
  · intro cs a s h
    have := getContentDictAux_success oc tries 0 cs a s h
    simpa using this
  · intro h2 h0
    cases tries with
    | zero => omega
    | succ n =>
      simp only [getContentDict, getContentDictAux, h0]
      rw [if_neg (by simp)]
      rw [FetchResult.bump_attempts]
      have := getContentDictAux_attempts_pos oc n (0 + 1) (by omega)
      omega

/-- C2, witness: with a 200/null first attempt and a 200/contracts second
attempt, the run succeeds at attempt 2 (one sleep), the successful attempt
is the 200 non-null one, the 200/null attempt was a soft failure, and at
least two attempts were made. -/
theorem success_requires_200_and_nonnull_witness :
    (1 + 1 = 2 ∧ nullThenOk 1 = Outcome.resp 200 (Body.contracts []) ∧
      ∀ j, j < 1 → softResp (nullThenOk j) = true) ∧
    2 ≤ (getContentDict 5 nullThenOk).attempts :=
  ⟨(success_requires_200_and_nonnull 5 nullThenOk).1 [] 2 1 rfl,
   (success_requires_200_and_nonnull 5 nullThenOk).2 (by omega) rfl⟩

/-- C10, counterexample.  The claim says every failed attempt — including
the final one — is followed by exactly one delay.  An attempt whose
transport call throws is a failed attempt (its dot is printed, nothing is
returned), yet the exception propagates before `sleep`: against an
always-throwing endpoint the run fails after 1 attempt with 0 delays. -/
theorem throw_attempt_no_sleep_cex :
    (getContentDict 5 (fun _ => Outcome.throw)).isSuccess = false ∧
    (getContentDict 5 (fun _ => Outcome.throw)).attempts = 1 ∧
    (getContentDict 5 (fun _ => Outcome.throw)).sleeps = 0 :=
  ⟨rfl, rfl, rfl⟩

/-- C10, amended.  Every attempt whose HTTP call returns a soft-failing
response is followed by exactly one delay, including the final one before
the bare `raise`, so an exhausted run of n attempts sleeps n times (not
n−1); a successful attempt returns with no delay after it; an attempt
that raises (transport throw or body-parsing error) propagates with no
delay after it. -/
theorem sleeps_per_attempt_amended (tries : Nat) (oc : Nat → Outcome) :
    delayShape tries (getContentDict tries oc) :=
  getContentDictAux_delayShape oc tries 0

/-- C3, counterexample.  A forecast row whose `dem` cell fails `float`
conversion (`AZ,abc,66.8`) raises an uncaught `ValueError` inside the
forecast lookup loop: the whole process dies with exit status 1 and no
table is ever printed, instead of the error being isolated to AZ's record
with processing continuing. -/
theorem forecast_conversion_halts_cex :
    (run (LoadRes.ok ["state", "dem", "rep"] [["AZ", "abc", "66.8"]])
        (fun _ _ => Outcome.throw)).crashed = true ∧
    (run (LoadRes.ok ["state", "dem", "rep"] [["AZ", "abc", "66.8"]])
        (fun _ _ => Outcome.throw)).exitCode = 1 ∧
    (run (LoadRes.ok ["state", "dem", "rep"] [["AZ", "abc", "66.8"]])
        (fun _ _ => Outcome.throw)).rendered = [] :=
  ⟨rfl, rfl, rfl⟩

/-- C3, amended.  Only errors raised inside `getContentDict` are isolated
to the state being processed: whenever the fetch does not return normally
(transport throw, non-200/null exhaustion, or body-parsing error), the
caller's bare `except:` reports failure for that state, leaves its record
untouched, and processing continues.  Errors in the forecast lookup loop
(failed numeric conversion, missing key) and in the contract-parsing loop
are uncaught and halt the whole process (see the counterexample). -/
theorem market_errors_isolated_amended (st : State) (tries : Nat) (oc : Nat → Outcome)
    (h : (getContentDict tries oc).isSuccess = false) :
    marketStep tries oc st = Except.ok (st, false) := by
  cases hr : getContentDict tries oc with
  | success cs a s => rw [hr] at h; exact absurd h (by simp [FetchResult.isSuccess])
  | exhausted a s => simp only [marketStep, hr]
  | aborted a s => simp only [marketStep, hr]
  | parseError a s => simp only [marketStep, hr]

/-- C3, witness: a transport throw on the first attempt is caught by the
caller; the state is reported failed and survives unchanged. -/
theorem market_errors_isolated_amended_witness :
    marketStep 5 (fun _ => Outcome.throw) azInit = Except.ok (azInit, false) :=
  market_errors_isolated_amended azInit 5 (fun _ => Outcome.throw) rfl

/-- An endpoint answering 200 with a single Democratic contract. -/
def demOnly : Nat → Outcome :=
  fun _ => Outcome.resp 200 (Body.contracts [⟨some "Democratic", some ((3 : ℚ)/10)⟩])

/-- C4, counterexample.  A successful response whose `Contracts` array
holds only a Democratic entry leaves the record with `piDemPrice` set and
`piRepPrice` absent after the Market Client phase: the two market fields
are not both-present-or-both-absent. -/
theorem one_sided_contracts_cex :
    (marketStep 5 demOnly azInit).toOption.map
      (fun p => (p.1.piDemPrice.isSome, p.1.piRepPrice.isSome, p.2)) =
    some (true, false, true) :=
  rfl

/-- Last `BestBuyYesCost` among the contracts named `target`, else the
prior value: the fold the parsing loop performs on one market field. -/
def lastPrice (target : String) (cs : List Contract) (d : Option ℚ) : Option ℚ :=
  cs.foldl (fun acc c => if c.name = some target then c.bestBuyYesCost else acc) d

/-- C4, amended.  The contract-parsing loop sets the two market price
fields independently: after a successful parse, each equals the last
matching contract's `BestBuyYesCost` (taken verbatim, with no [0,1]
validation) or its prior value when no contract matches; the forecast
fields and the abbreviation are untouched.  Hence a record can end the
phase with exactly one market field set (see the counterexample). -/
theorem market_fields_independent_amended (cs : List Contract) :
    ∀ st st2 : State, parseContracts st cs = Except.ok st2 →
      st2.piDemPrice = lastPrice "Democratic" cs st.piDemPrice ∧
      st2.piRepPrice = lastPrice "Republican" cs st.piRepPrice ∧
      st2.abbr = st.abbr ∧ st2.fteDemChance = st.fteDemChance ∧
      st2.fteRepChance = st.fteRepChance := by
  induction cs with
  | nil =>
    intro st st2 h
    simp only [parseContracts, Except.ok.injEq] at h
    subst h
    exact ⟨rfl, rfl, rfl, rfl, rfl⟩
  | cons c rest ih =>
    intro st st2 h
    simp only [parseContracts] at h
    cases hn : c.name with
    | none => rw [hn] at h; exact absurd h (by simp)
    | some n =>
      rw [hn] at h
      simp only [] at h
      by_cases hd : n = "Democratic"
      · rw [if_pos hd] at h
        cases hp : c.bestBuyYesCost with
        | none => rw [hp] at h; exact absurd h (by simp)
        | some p =>
          rw [hp] at h
          obtain ⟨h1, h2, h3, h4, h5⟩ := ih _ _ h
          subst hd
          refine ⟨?_, ?_, h3, h4, h5⟩
          · rw [h1]; simp [lastPrice, hn, hp]
          · rw [h2]; simp [lastPrice, hn]
      · rw [if_neg hd] at h
        by_cases hr : n = "Republican"
        · rw [if_pos hr] at h
          cases hp : c.bestBuyYesCost with
          | none => rw [hp] at h; exact absurd h (by simp)
          | some p =>
            rw [hp] at h
            obtain ⟨h1, h2, h3, h4, h5⟩ := ih _ _ h
            subst hr
            refine ⟨?_, ?_, h3, h4, h5⟩
            · rw [h1]; simp [lastPrice, hn, hd]
            · rw [h2]; simp [lastPrice, hn, hp]
        · rw [if_neg hr] at h
          obtain ⟨h1, h2, h3, h4, h5⟩ := ih _ _ h
          refine ⟨?_, ?_, h3, h4, h5⟩
          · rw [h1]; simp [lastPrice, hn, hd]
          · rw [h2]; simp [lastPrice, hn, hr]

/-- A single Republican contract, and the record it produces from a fresh
state. -/
def repOnly : List Contract := [⟨some "Republican", some ((7 : ℚ)/10)⟩]

/-- The record produced by parsing `repOnly` from a fresh AZ record. -/
def repOnlyRes : State :=
  ⟨"AZ", "Arizona", none, none, none, none, some ((7 : ℚ)/10), some ((7 : ℚ)/10 * 100)⟩

/-- C4, witness: parsing a lone Republican contract sets `piRepPrice` to
its cost and leaves `piDemPrice` at its prior (absent) value. -/
theorem market_fields_independent_amended_witness :
    repOnlyRes.piDemPrice = lastPrice "Democratic" repOnly azInit.piDemPrice ∧
    repOnlyRes.piRepPrice = lastPrice "Republican" repOnly azInit.piRepPrice ∧
    repOnlyRes.abbr = azInit.abbr ∧ repOnlyRes.fteDemChance = azInit.fteDemChance ∧
    repOnlyRes.fteRepChance = azInit.fteRepChance :=
  market_fields_independent_amended repOnly azInit repOnlyRes rfl

theorem lookup_zip_not_mem {k : String} :
    ∀ (h : List String) (r : List String), k ∉ h → (h.zip r).lookup k = none := by
  intro h
  induction h with
  | nil => intro r _; rfl
  | cons a t ih =>
    intro r hk
    cases r with
    | nil => rfl
    | cons b rb =>
      simp only [List.zip_cons_cons, List.lookup]
      have hne : (k == a) = false := by
        simp only [beq_eq_false_iff_ne, ne_eq]
        intro he
        exact hk (by simp [he])
      rw [hne]
      exact ih rb (fun hm => hk (List.mem_cons_of_mem _ hm))

/-- C5, counterexample.  A present, readable file whose header is
malformed (`foo,bar`) but which has no data rows does not exit with
status 1: the lookup loop never consults a row, every state simply fails
its lookup, and the run completes normally with exit status 0 and no
diagnostic. -/
theorem malformed_header_no_rows_exit0_cex :
    (run (LoadRes.ok ["foo", "bar"] []) (fun _ _ => Outcome.throw)).exitCode = 0 ∧
    (run (LoadRes.ok ["foo", "bar"] []) (fun _ _ => Outcome.throw)).fatalMsg = false :=
  ⟨rfl, rfl⟩

/-- C5, amended.  A missing/unreadable file exits with status 1 and the
explicit diagnostic.  A malformed header (no `state` column) causes an
uncaught `KeyError` and exit status 1 provided at least one data row is
present; with no data rows the malformed header goes unnoticed (see the
counterexample).  A run in which both loops finish exits 0 with no
diagnostic and no crash, regardless of how incomplete the per-state data
is. -/
theorem exit_codes_amended :
    (∀ oc, run LoadRes.err oc = ⟨1, true, false, [], []⟩) ∧
    (∀ header rawRows oc row rest, rawRows = row :: rest → "state" ∉ header →
      (run (LoadRes.ok header rawRows) oc).exitCode = 1 ∧
      (run (LoadRes.ok header rawRows) oc).crashed = true) ∧
    (∀ header rawRows oc sts1 sts2,
      fteAll (readCsv header rawRows) states = Except.ok sts1 →
      marketAll oc sts1 = Except.ok sts2 →
      (run (LoadRes.ok header rawRows) oc).exitCode = 0 ∧
      (run (LoadRes.ok header rawRows) oc).fatalMsg = false ∧
      (run (LoadRes.ok header rawRows) oc).crashed = false) := by
  refine ⟨fun _ => rfl, ?_, ?_⟩
  · intro header rawRows oc row rest hrr hmem
    subst hrr
    have hlook : (header.zip row).lookup "state" = none := lookup_zip_not_mem header row hmem
    simp only [run, readCsv, states, stateNames, List.map, fteAll, fteStep, hlook]
    exact ⟨trivial, trivial⟩
  · intro header rawRows oc sts1 sts2 h1 h2
    simp only [run, h1, h2]
    exact ⟨trivial, trivial, trivial⟩

/-- C5, witness: a malformed header with one data row crashes the run
with exit status 1; the same header with no data rows (and a dead
endpoint) completes with exit status 0. -/
theorem exit_codes_amended_witness :
    ((run (LoadRes.ok ["foo", "bar"] [["AZ"]]) (fun _ _ => Outcome.throw)).exitCode = 1 ∧
     (run (LoadRes.ok ["foo", "bar"] [["AZ"]]) (fun _ _ => Outcome.throw)).crashed = true) ∧
    ((run (LoadRes.ok ["foo", "bar"] []) (fun _ _ => Outcome.throw)).exitCode = 0 ∧
     (run (LoadRes.ok ["foo", "bar"] []) (fun _ _ => Outcome.throw)).fatalMsg = false ∧
     (run (LoadRes.ok ["foo", "bar"] []) (fun _ _ => Outcome.throw)).crashed = false) :=
  ⟨exit_codes_amended.2.1 ["foo", "bar"] [["AZ"]] (fun _ _ => Outcome.throw) ["AZ"] [] rfl
      (by decide),
   exit_codes_amended.2.2 ["foo", "bar"] [] (fun _ _ => Outcome.throw) states states rfl rfl⟩

/-- C6.  The rendering loop partitions the record list exactly: the
printed rows are the records passing the four-attribute presence check,
in their original order, the `badData` abbreviations are exactly the
remaining records in their original order, and the two group sizes sum to
the whole; so every record lands in exactly one group. -/
theorem render_partitions (sts : List State) :
    (renderPhase sts).1 = (sts.filter hasAll).map renderRow ∧
    (renderPhase sts).2 = (sts.filter (fun s => ! hasAll s)).map State.abbr ∧
    (renderPhase sts).1.length + (renderPhase sts).2.length = sts.length := by
  induction sts with
  | nil => exact ⟨rfl, rfl, rfl⟩
  | cons st rest ih =>
    obtain ⟨ih1, ih2, ih3⟩ := ih
    cases hb : hasAll st with
    | true =>
      have e : renderPhase (st :: rest) =
          (renderRow st :: (renderPhase rest).1, (renderPhase rest).2) := by
        simp [renderPhase, hb]
      refine ⟨?_, ?_, ?_⟩
      · rw [e]; simp [List.filter_cons, hb, ih1]
      · rw [e]; simp [List.filter_cons, hb, ih2]
      · rw [e]; simp only [List.length_cons]; omega
    | false =>
      have e : renderPhase (st :: rest) =
          ((renderPhase rest).1, st.abbr :: (renderPhase rest).2) := by
        simp [renderPhase, hb]
      refine ⟨?_, ?_, ?_⟩
      · rw [e]; simp [List.filter_cons, hb, ih1]
      · rw [e]; simp [List.filter_cons, hb, ih2]
      · rw [e]; simp only [List.length_cons]; omega

/-- C7, counterexample.  The difference value 3/5 is positive, yet
`addSign` renders it as `1` with no `+` prefix: the sign check uses
`int(n) > 0`, which truncates 3/5 to 0. -/
theorem positive_diff_no_plus_cex :
    (0 : ℚ) < 3/5 ∧ addSign (3/5) = "1" := by
  refine ⟨by norm_num, ?_⟩
  simp only [addSign, pyInt, fmt0f, roundHalfEven]
  norm_num
  rfl

/-- C7, amended.  The rendered difference carries the explicit `+` prefix
exactly when the value truncates to a positive integer, i.e. when it is
at least 1; a positive value below 1 gets no sign glyph (even though it
may round up and print as `1`), and zero or negative values get no glyph
beyond the formatter's own `-`; the magnitude is rounded (half-to-even)
to a whole number by `format(n, '0.0f')`. -/
theorem pyInt_pos_iff (q : ℚ) : 0 < pyInt q ↔ 1 ≤ q := by
  rcases lt_or_le q 0 with hq | hq
  · simp only [pyInt, if_pos hq]
    constructor
    · intro hp
      exfalso
      have hlt : ⌊-q⌋ < 0 := by omega
      rw [Int.floor_lt] at hlt
      push_cast at hlt
      linarith
    · intro h1; linarith
  · simp only [pyInt, if_neg (not_lt.mpr hq)]
    constructor
    · intro hp
      have hle : ((1 : ℤ) : ℚ) ≤ q := Int.le_floor.mp hp
      exact_mod_cast hle
    · intro h1
      have : (1 : ℤ) ≤ ⌊q⌋ := Int.le_floor.mpr (by exact_mod_cast h1)
      omega

theorem addSign_amended (q : ℚ) :
    addSign q = if 1 ≤ q then "+" ++ fmt0f q else fmt0f q := by
  have h := pyInt_pos_iff q
  by_cases hc : 1 ≤ q
  · rw [addSign, if_pos (h.mpr hc), if_pos hc]
  · rw [addSign, if_neg (fun hp => hc (h.mp hp)), if_neg hc]

/-- The parsed forecast file of the end-to-end example: one row
`AZ,33.2,66.8` under the header `state,dem,rep`. -/
def c8rows : List Row := readCsv ["state", "dem", "rep"] [["AZ", "33.2", "66.8"]]

/-- Contracts of the end-to-end example's market response. -/
def c8cs : List Contract :=
  [⟨some "Democratic", some ((3 : ℚ)/10)⟩, ⟨some "Republican", some ((7 : ℚ)/10)⟩]

/-- The end-to-end example's endpoint: first attempt already succeeds. -/
def c8oc : Nat → Outcome := fun _ => Outcome.resp 200 (Body.contracts c8cs)

/-- AZ's record after the forecast phase of the example. -/
def c8afterFte : State := ⟨"AZ", "Arizona", some (166/5), some (334/5), none, none, none, none⟩

/-- AZ's record after the market phase of the example. -/
def c8afterMarket : State :=
  ⟨"AZ", "Arizona", some (166/5), some (334/5), some ((3 : ℚ)/10), some 30,
   some ((7 : ℚ)/10), some 70⟩

/-- C8.  End-to-end on the spec's example: the forecast row `AZ,33.2,66.8`
and a market response with Democratic at 0.30 and Republican at 0.70
produce an AZ table row with forecast cells `33%` and `67%`, market cells
`30¢` and `70¢`, and difference cells `-3` and `+3`. -/
theorem az_end_to_end :
    fteStep c8rows azInit = Except.ok (c8afterFte, true) ∧
    marketStep 5 c8oc c8afterFte = Except.ok (c8afterMarket, true) ∧
    renderCells c8afterMarket = ["33%", "30¢", "-3", "67%", "70¢", "+3"] ∧
    renderRow c8afterMarket = "  AZ │ 33%  30¢  -3 │ 67%  70¢  +3" := by
  have hf : fteStep c8rows azInit = Except.ok (c8afterFte, true) := by
    rw [show c8rows = [[("state", "AZ"), ("dem", "33.2"), ("rep", "66.8")]] from rfl]
    simp only [fteStep]
    rw [show ([("state", "AZ"), ("dem", "33.2"), ("rep", "66.8")] : Row).lookup "state" =
      some "AZ" from rfl]
    rw [show ([("state", "AZ"), ("dem", "33.2"), ("rep", "66.8")] : Row).lookup "dem" =
      some "33.2" from rfl]
    rw [show ([("state", "AZ"), ("dem", "33.2"), ("rep", "66.8")] : Row).lookup "rep" =
      some "66.8" from rfl]
    simp only []
    rw [show pyFloat "33.2" =
      some ((if false then (-1 : ℚ) else 1) * ((33 : ℚ) + (2 : ℚ) / (10 : ℚ) ^ 1)) from rfl]
    rw [show pyFloat "66.8" =
      some ((if false then (-1 : ℚ) else 1) * ((66 : ℚ) + (8 : ℚ) / (10 : ℚ) ^ 1)) from rfl]
    simp only [azInit, c8afterFte]
    norm_num
  have hm : marketStep 5 c8oc c8afterFte = Except.ok (c8afterMarket, true) := by
    simp only [marketStep]
    rw [show getContentDict 5 c8oc = FetchResult.success c8cs 1 0 from rfl]
    simp only [parseContracts, c8cs, c8afterFte, c8afterMarket]
    norm_num
    rw [if_neg (by decide : ¬ ("Republican" = "Democratic"))]
    simp only [Except.map]
  have hc : renderCells c8afterMarket = ["33%", "30¢", "-3", "67%", "70¢", "+3"] := by
    have h1 : fmt0f (166/5) = "33" := by
      simp only [fmt0f, roundHalfEven]; norm_num; rfl
    have h3 : addSign ((30 : ℚ) - 166/5) = "-3" := by
      simp only [addSign, pyInt, fmt0f, roundHalfEven]; norm_num; rfl
    have h4 : fmt0f (334/5) = "67" := by
      simp only [fmt0f, roundHalfEven]; norm_num; rfl
    have h6 : addSign ((70 : ℚ) - 334/5) = "+3" := by
      simp only [addSign, pyInt, fmt0f, roundHalfEven]; norm_num; rfl
    simp only [renderCells, c8afterMarket, Option.getD]
    rw [h1, h3, h4, h6]
    rw [show fmt0f (30 : ℚ) = "30" by simp only [fmt0f, roundHalfEven]; norm_num; rfl]
    rw [show fmt0f (70 : ℚ) = "70" by simp only [fmt0f, roundHalfEven]; norm_num; rfl]
    rfl
  exact ⟨hf, hm, hc, by simp only [renderRow, hc]; rfl⟩

/-- C9.  The forecast lookup scans rows in order comparing the `state`
cell to the record's code by exact string equality: when earlier rows all
name other states and a row matches with parseable `dem` and `rep` cells,
both forecast fields are set from that first matching row and the scan
stops (later rows, duplicates included, are never read); when no row
matches, the record is returned unchanged (fields stay absent) and
failure is reported. -/
theorem fte_first_match :
    (∀ (st : State) (pre post : List Row) (row : Row) (d r : String) (dv rv : ℚ),
      (∀ x ∈ pre, ∃ v, x.lookup "state" = some v ∧ v ≠ st.abbr) →
      row.lookup "state" = some st.abbr →
      row.lookup "dem" = some d → pyFloat d = some dv →
      row.lookup "rep" = some r → pyFloat r = some rv →
      fteStep (pre ++ row :: post) st =
        Except.ok ({ st with fteDemChance := some dv, fteRepChance := some rv }, true)) ∧
    (∀ (st : State) (rows : List Row),
      (∀ x ∈ rows, ∃ v, x.lookup "state" = some v ∧ v ≠ st.abbr) →
      fteStep rows st = Except.ok (st, false)) := by
  constructor
  · intro st pre
    induction pre with
    | nil =>
      intro post row d r dv rv _ hrow hd hdv hr hrv
      simp only [List.nil_append, fteStep, hrow]
      simp only [if_true]
      simp only [hd, hdv, hr, hrv]
    | cons x pre ih =>
      intro post row d r dv rv hpre hrow hd hdv hr hrv
      obtain ⟨v, hv, hvne⟩ := hpre x (List.mem_cons_self x pre)
      simp only [List.cons_append, fteStep, hv]
      rw [if_neg hvne]
      exact ih post row d r dv rv (fun y hy => hpre y (List.mem_cons_of_mem _ hy))
        hrow hd hdv hr hrv
  · intro st rows h
    induction rows with
    | nil => rfl
    | cons x rest ih =>
      obtain ⟨v, hv, hvne⟩ := h x (List.mem_cons_self x rest)
      simp only [fteStep, hv]
      rw [if_neg hvne]
      exact ih (fun y hy => h y (List.mem_cons_of_mem _ hy))

/-- A forecast row for another state, scanned before the match. -/
def c9pre : Row := [("state", "CO")]

/-- The matching forecast row of the C9 witness. -/
def c9row : Row := [("state", "AZ"), ("dem", "5"), ("rep", "7")]

/-- AZ's record after the C9 witness lookup succeeds. -/
def c9res : State :=
  { azInit with fteDemChance := some ((pyFloat "5").getD 0), fteRepChance := some ((pyFloat "7").getD 0) }

/-- C9, witness: with a non-matching CO row first, the AZ row sets both
fields; with only the CO row, AZ's record is returned unchanged and
marked failed. -/
theorem fte_first_match_witness :
    fteStep [c9pre, c9row] azInit = Except.ok (c9res, true) ∧
    fteStep [c9pre] azInit = Except.ok (azInit, false) :=
  ⟨fte_first_match.1 azInit [c9pre] [] c9row "5" "7"
      ((pyFloat "5").getD 0) ((pyFloat "7").getD 0)
      (fun x hx => by
        rw [List.mem_singleton] at hx
        subst hx
        exact ⟨"CO", rfl, by decide⟩)
      rfl rfl rfl rfl rfl,
   fte_first_match.2 azInit [c9pre]
      (fun x hx => by
        rw [List.mem_singleton] at hx
        subst hx
        exact ⟨"CO", rfl, by decide⟩)⟩

end PIvs538
